import Mathlib

set_option maxHeartbeats 2000000
set_option maxRecDepth 8192

/-!
Verification of the usbtiny programmer driver (`usbtiny.c`).

The driver is embedded shallowly: each C function becomes a Lean definition
over explicit state.  The USB transport (`usb_control_msg` behind `usb_in` /
`usb_out`) is modelled as an oracle (`Channel`): an inbound exchange either
transfers exactly the requested number of bytes (returning their contents) or
is short (modelled as `none`, the case where `usb_in` returns `-1`).  The
global driver state (`chunk_size`, the single-slot read cache and the
cache-disable counter) becomes an explicit `TinyState` record.  Machine
integers are modelled as `Nat` / `Int`; all address arithmetic in the driver
stays far below any overflow boundary, except the 64-bit complement mask in
`usbtiny_read_byte`, which is modelled exactly over the 64-bit range of
`ulong_t`.  The C `double` arithmetic of `usbtiny_set_sck_period` is
idealised as exact rational arithmetic (`ℚ`): the constants `1e6` and `0.5`
are exactly representable, so the idealisation only ignores the final
rounding of the product `v * 1e6`.
-/

/-! ## Constants from the request-code and limits enums (usbtiny.c lines 31-59) -/

def USBTINY_SPI : Nat := 7
def USBTINY_POLL_BYTES : Nat := 8
def USBTINY_FLASH_READ : Nat := 9
def USBTINY_FLASH_WRITE : Nat := 10
def USBTINY_EEPROM_READ : Nat := 11
def USBTINY_EEPROM_WRITE : Nat := 12

def SCK_MIN : Int := 1
def SCK_MAX : Int := 250
def SCK_DEFAULT : Int := 10
def CHUNK_SIZE : Nat := 128

/-- The operation index `AVR_OP_PGM_ENABLE` of the external `avr.h` operation
enum; only its role as an index into the part's template table matters. -/
def AVR_OP_PGM_ENABLE : Nat := 10

/-! ## Timing controller -/

/-- The body of `usbtiny_set_chunk_size`'s `while` loop (usbtiny.c lines
183-189): starting from `chunk`, halve `chunk` and `period` while
`chunk > 8 && period > 16`.  The loop halves `chunk` on every iteration, so
it runs at most 4 times starting from `CHUNK_SIZE = 128`; the structural
`fuel` argument (always called with fuel 8 > 4) only makes the recursion
structural and never cuts the computation short. -/
def chunkLoop : Nat → Nat → Nat → Nat
  | 0, chunk, _ => chunk
  | fuel + 1, chunk, period =>
    if 8 < chunk ∧ 16 < period then chunkLoop fuel (chunk / 2) (period / 2) else chunk

/-- `usbtiny_set_chunk_size` (usbtiny.c lines 181-190): computes the new
`chunk_size` global from a clock period. -/
def usbtiny_set_chunk_size (period : Nat) : Nat :=
  chunkLoop 8 CHUNK_SIZE period

/-- C integer conversion `(int) x` for a rational `x`: truncation toward
zero. -/
def intTrunc (q : ℚ) : ℤ :=
  if q < 0 then -(⌊-q⌋) else ⌊q⌋

/-- `usbtiny_set_sck_period` (usbtiny.c lines 192-207), restricted to the
value it assigns to the `sck_period` global: `(int)(v * 1e6 + 0.5)`, then
raised to `SCK_MIN` and lowered to `SCK_MAX`.  (The C function itself always
returns 0 and additionally sends a `POWERUP` control message and recomputes
`chunk_size`; the recomputation is modelled at the call site below.) -/
def usbtiny_set_sck_period (v : ℚ) : ℤ :=
  let p0 : ℤ := intTrunc (v * 1000000 + 1 / 2)
  let p1 : ℤ := if p0 < SCK_MIN then SCK_MIN else p0
  if SCK_MAX < p1 then SCK_MAX else p1

/-! ## Driver state, transport oracle and external data model -/

/-- The driver's global mutable state (usbtiny.c lines 70-76): the derived
`chunk_size`, the single-slot read cache (`cache_mem` is the C `AVRMEM*`
pointer, modelled by the pointed-to region's identity, with `none` for
`NULL`; `cache_base`; `cache_buf`) and the cache-disable nesting counter.
`sck_period` only feeds USB timeouts and is not part of any verified
property, so it is kept out of the record. -/
structure TinyState where
  chunk_size : Nat
  cache_mem : Option Nat
  cache_base : Nat
  cache_buf : Nat → Nat
  cache_disable : Nat

/-- The transport channel (libusb's `usb_control_msg` as used by `usb_in` /
`usb_out`).  `spi` answers a `USBTINY_SPI` exchange: `none` models a short
transfer (`usb_in` returns `-1`), `some res` an exchange that moved exactly
the 4 requested bytes.  `memRead req addr len` likewise answers a
`FLASH_READ`/`EEPROM_READ` exchange with either the transferred bytes
(indexed from the start of the chunk) or a short-transfer failure.
`memWrite req delay addr len` reports whether an outbound
`FLASH_WRITE`/`EEPROM_WRITE` exchange moved all `len` bytes. -/
structure Channel where
  spi : (Fin 4 → Nat) → Option (Fin 4 → Nat)
  memRead : Nat → Nat → Nat → Option (Nat → Nat)
  memWrite : Nat → Nat → Nat → Nat → Bool

/-- The part descriptor (`AVRPART`, external header): the per-operation bit
templates `op` (`none` models a `NULL` `p->op[op]` entry). -/
structure AVRPART where
  op : Nat → Option (Fin 4 → Nat)

/-- The memory-region descriptor (`AVRMEM`, external header).  `id` models
the pointer identity that the C code compares with `cache_mem != m`. -/
structure AVRMEM where
  id : Nat
  desc : String
  size : Nat
  paged : Bool
  readback0 : Nat
  readback1 : Nat
  max_write_delay : Nat

/-- Modelled from the spec: `avr_set_bits` (external, declared in `avr.h`)
builds the 4 command bytes by setting the template's bits into the
zero-initialised command buffer; its internals are outside this core, so the
template is modelled directly as the byte mask it contributes, OR-ed onto the
buffer. -/
def avr_set_bits (tmpl : Fin 4 → Nat) (cmd : Fin 4 → Nat) : Fin 4 → Nat :=
  fun k => cmd k ||| tmpl k

/-! ## Command relay -/

/-- Result of `usbtiny_cmd` / `usbtiny_avr_op`: the C `int` return value,
the 4 response bytes written into the caller's `res` buffer, and the updated
driver state.  `spiIssued` is ghost instrumentation recording whether the
call performed a `USBTINY_SPI` exchange on the channel. -/
structure CmdResult where
  ret : Int
  res : Fin 4 → Nat
  state : TinyState
  spiIssued : Bool

/-- `usbtiny_cmd` (usbtiny.c lines 251-266): invalidates the read cache
(`cache_mem = NULL`), zeroes `res`, performs a single `USBTINY_SPI` inbound
exchange of 4 bytes, and returns `(r == 0 && res[2] == cmd[1])` — `1` on
success, `0` otherwise.  On a short transfer (`r == -1`) the response buffer
contents are irrelevant to the result and are modelled as the zeroes `memset`
put there. -/
def usbtiny_cmd (ch : Channel) (st : TinyState) (cmd : Fin 4 → Nat) : CmdResult :=
  let st' : TinyState := { st with cache_mem := none }
  match ch.spi cmd with
  | none => ⟨0, fun _ => 0, st', true⟩
  | some res => ⟨if res 2 = cmd 1 then 1 else 0, res, st', true⟩

/-- `usbtiny_avr_op` (usbtiny.c lines 122-134): returns `-1` if the part
defines no bit template for the operation (leaving the state untouched and
issuing nothing on the channel); otherwise builds the command from the
template over a zeroed buffer and delegates to `pgm->cmd = usbtiny_cmd`. -/
def usbtiny_avr_op (ch : Channel) (st : TinyState) (p : AVRPART) (op : Nat) : CmdResult :=
  match p.op op with
  | none => ⟨-1, fun _ => 0, st, false⟩
  | some tmpl => usbtiny_cmd ch st (avr_set_bits tmpl (fun _ => 0))

/-! ## Byte cache -/

/-- The chunk-aligned cache base (usbtiny.c line 379):
`addr & ~ (ulong_t)(chunk_size - 1)`.  `ulong_t` is 64 bits wide, so the
complement of `chunk_size - 1` is `(2^64 - 1) XOR (chunk_size - 1)`. -/
def cacheBase (csize addr : Nat) : Nat :=
  addr &&& ((2 ^ 64 - 1) ^^^ (csize - 1))

/-- How a single-byte read concluded: delegated to the external
`avr_read_byte_default` fallback, returned `0` with a value, or returned
`-1`. -/
inductive ReadOutcome where
  | fallback
  | ok (value : Nat)
  | err
deriving DecidableEq

/-- Result of `usbtiny_read_byte`: the outcome, whether a cache-refill
exchange was performed on the channel (ghost instrumentation), and the
updated driver state. -/
structure ReadResult where
  outcome : ReadOutcome
  refilled : Bool
  state : TinyState

/-- `usbtiny_read_byte` (usbtiny.c lines 360-397): falls back to
`avr_read_byte_default` when the cache is disabled or the region is neither
flash nor eeprom; otherwise serves the byte from the single-slot cache,
refilling `min(m.size, chunk_size)` bytes at the chunk-aligned base on a
miss.  A failed refill sets `cache_mem = NULL` and returns `-1`. -/
def usbtiny_read_byte (ch : Channel) (st : TinyState) (m : AVRMEM) (addr : Nat) :
    ReadResult :=
  if 0 < st.cache_disable then ⟨.fallback, false, st⟩
  else if m.desc ≠ "flash" ∧ m.desc ≠ "eeprom" then ⟨.fallback, false, st⟩
  else
    let base := cacheBase st.chunk_size addr
    if st.cache_mem ≠ some m.id ∨ st.cache_base ≠ base then
      let req := if m.desc = "flash" then USBTINY_FLASH_READ else USBTINY_EEPROM_READ
      let size := if m.size < st.chunk_size then m.size else st.chunk_size
      match ch.memRead req base size with
      | none => ⟨.err, true, { st with cache_mem := none }⟩
      | some data =>
        let buf' : Nat → Nat := fun k => if k < size then data k else st.cache_buf k
        ⟨.ok (buf' (addr - base)), true,
         { st with cache_mem := some m.id, cache_base := base, cache_buf := buf' }⟩
    else ⟨.ok (st.cache_buf (addr - base)), false, st⟩

/-! ## Initialization -/

/-- Result of `usbtiny_initialize`: the C return value, the number of
`USBTINY_SPI` exchanges performed (ghost instrumentation), and the final
state. -/
structure InitResult where
  ret : Int
  spiExchanges : Nat
  state : TinyState

/-- Number of SPI exchanges a single command-relay call performed. -/
def spiCount (r : CmdResult) : Nat :=
  if r.spiIssued then 1 else 0

/-- `usbtiny_initialize` (usbtiny.c lines 209-240): sets `sck_period` from
the `-B` bitclock when given (`pgm->bitclock > 0.0`), else to `SCK_DEFAULT`,
recomputes `chunk_size` accordingly, then issues `AVR_OP_PGM_ENABLE` through
`usbtiny_avr_op`; the C code tests the result with `!`, so only a result of
`0` triggers the reset-toggle retry, and only a second `0` makes it return
`-1`.  (Named `usbtiny_init` here for lexical reasons; the `usb_control`
power-up notifications and `usleep` delays are fire-and-forget and not
modelled.) -/
def usbtiny_init (ch : Channel) (st : TinyState) (p : AVRPART) (bitclock : ℚ) :
    InitResult :=
  let sck : ℤ := if 0 < bitclock then usbtiny_set_sck_period bitclock else SCK_DEFAULT
  let st0 : TinyState := { st with chunk_size := usbtiny_set_chunk_size sck.toNat }
  let r1 := usbtiny_avr_op ch st0 p AVR_OP_PGM_ENABLE
  if r1.ret = 0 then
    let r2 := usbtiny_avr_op ch r1.state p AVR_OP_PGM_ENABLE
    if r2.ret = 0 then ⟨-1, spiCount r1 + spiCount r2, r2.state⟩
    else ⟨0, spiCount r1 + spiCount r2, r2.state⟩
  else ⟨0, spiCount r1, r1.state⟩

/-! ## Memory access engine -/

/-- One chunk transfer of a paged read: the address/offset `i` passed as
`wIndex`, the chunk length, and whether the exchange moved all requested
bytes.  The C code discards `usb_in`'s return value here, so `ok` is ghost
instrumentation only. -/
structure LoadEvent where
  offset : Nat
  len : Nat
  ok : Bool
deriving DecidableEq

/-- The chunk loop of `usbtiny_paged_load` (usbtiny.c lines 303-312):
`for (i = 0; i < n_bytes; i += chunk)` with
`chunk = min(chunk_size, n_bytes - i)`.  Each iteration advances `i` by at
least one byte when `chunk_size ≥ 1`, so `fuel = n_bytes` steps suffice; the
structural `fuel` only bounds the recursion (for `chunk_size = 0` the C loop
would not terminate at all). -/
def loadChunks (ch : Channel) (req csize nBytes : Nat) : Nat → Nat → List LoadEvent
  | 0, _ => []
  | fuel + 1, i =>
    if i < nBytes then
      let chunk := if nBytes - i < csize then nBytes - i else csize
      ⟨i, chunk, (ch.memRead req i chunk).isSome⟩ ::
        loadChunks ch req csize nBytes fuel (i + chunk)
    else []

/-- `usbtiny_paged_load` (usbtiny.c lines 292-314): selects the read request
code from the region kind, transfers the buffer in chunks (the data lands in
`m->buf`, which no verified property inspects), and returns `n_bytes`
unconditionally — the result of each `usb_in` is discarded. -/
def usbtiny_paged_load (ch : Channel) (st : TinyState) (m : AVRMEM) (nBytes : Nat) :
    List LoadEvent × Nat :=
  let req := if m.desc = "flash" then USBTINY_FLASH_READ else USBTINY_EEPROM_READ
  (loadChunks ch req st.chunk_size nBytes nBytes 0, nBytes)

/-- One chunk transfer of a paged write: offset, length, the (discarded)
`usb_out` success flag, and whether `avr_write_page` was invoked right after
this chunk (with this chunk's starting address `i`). -/
structure WriteEvent where
  offset : Nat
  len : Nat
  ok : Bool
  commit : Bool
deriving DecidableEq

/-- The chunk loop of `usbtiny_paged_write` (usbtiny.c lines 336-356): the
chunk is bounded by `chunk_size`, additionally by `page_size` when the
region is paged, and by the remaining bytes; after sending, when the region
is paged and `next = i + chunk` is a page boundary or the end of the
transfer, the page at address `i` is committed via `avr_write_page`
(external).  As in `loadChunks`, `fuel = n_bytes` suffices when the
effective chunk bound is positive. -/
def writeChunks (ch : Channel) (req : Nat) (paged : Bool) (csize pgsize delay nBytes : Nat) :
    Nat → Nat → List WriteEvent
  | 0, _ => []
  | fuel + 1, i =>
    if i < nBytes then
      let chunk0 := if paged ∧ pgsize < csize then pgsize else csize
      let chunk := if nBytes - i < chunk0 then nBytes - i else chunk0
      let next := i + chunk
      ⟨i, chunk, ch.memWrite req delay i chunk,
        paged && ((next % pgsize == 0) || (next == nBytes))⟩ ::
        writeChunks ch req paged csize pgsize delay nBytes fuel next
    else []

/-- `usbtiny_paged_write` (usbtiny.c lines 316-358): selects the write
request code from the region kind; for a non-paged region it first programs
the poll bytes `(m->readback[1] << 8) | m->readback[0]` through the
fire-and-forget `USBTINY_POLL_BYTES` control (not modelled) and uses
`m->max_write_delay` as the per-chunk delay, otherwise the delay stays 0;
then it runs the chunk loop and returns `n_bytes` unconditionally. -/
def usbtiny_paged_write (ch : Channel) (st : TinyState) (m : AVRMEM)
    (page_size nBytes : Nat) : List WriteEvent × Nat :=
  let req := if m.desc = "flash" then USBTINY_FLASH_WRITE else USBTINY_EEPROM_WRITE
  let delay := if m.paged then 0 else m.max_write_delay
  (writeChunks ch req m.paged st.chunk_size page_size delay nBytes nBytes 0, nBytes)

/-! ## Concrete fixtures used by witnesses and counterexamples -/

/-- A driver state with a 128-byte chunk, an invalid cache and caching
enabled. -/
def stW : TinyState := ⟨128, none, 0, fun _ => 0, 0⟩

/-- A fully reliable channel whose SPI responses echo `cmd[1]` in every
byte. -/
def chW : Channel where
  spi := fun c => some fun _ => c 1
  memRead := fun _ _ _ => some fun _ => 7
  memWrite := fun _ _ _ _ => true

/-- A channel that short-changes precisely the memory-read exchange at
address 0 and answers every other exchange in full. -/
def chFail0 : Channel where
  spi := fun _ => none
  memRead := fun _ addr _ => if addr = 0 then none else some fun _ => 0
  memWrite := fun _ _ _ _ => true

/-- A paged flash region. -/
def mFlash : AVRMEM := ⟨1, "flash", 32768, true, 0, 0, 4500⟩

/-- A non-paged eeprom region. -/
def mEeprom : AVRMEM := ⟨2, "eeprom", 512, false, 255, 255, 9000⟩

/-- A part defining no bit template for any operation. -/
def pNone : AVRPART := ⟨fun _ => none⟩

/-- An all-zero 4-byte command. -/
def cmdW : Fin 4 → Nat := fun _ => 0

/-! # Theorems -/

/-! ## Chunk-size facts by finite evaluation -/

lemma chunk_size_adjacent_le :
    ∀ i < 249, usbtiny_set_chunk_size (i + 2) ≤ usbtiny_set_chunk_size (i + 1) := by
  decide

lemma chunk_size_add_le :
    ∀ d p : Nat, 1 ≤ p → p + d ≤ 250 →
      usbtiny_set_chunk_size (p + d) ≤ usbtiny_set_chunk_size p := by
  intro d
  induction d with
  | zero => intro p _ _; exact Nat.le_refl _
  | succ d ih =>
    intro p hp hle
    have h1 : usbtiny_set_chunk_size (p + d + 1) ≤ usbtiny_set_chunk_size (p + d) := by
      have := chunk_size_adjacent_le (p + d - 1) (by omega)
      have e1 : p + d - 1 + 2 = p + d + 1 := by omega
      have e2 : p + d - 1 + 1 = p + d := by omega
      rwa [e1, e2] at this
    exact le_trans (by simpa [Nat.add_assoc] using h1) (ih p hp (by omega))

lemma chunk_size_range :
    ∀ p < 250, 8 ≤ usbtiny_set_chunk_size (p + 1) ∧
      usbtiny_set_chunk_size (p + 1) ≤ 128 ∧
      (usbtiny_set_chunk_size (p + 1) = 8 ∨ usbtiny_set_chunk_size (p + 1) = 16 ∨
       usbtiny_set_chunk_size (p + 1) = 32 ∨ usbtiny_set_chunk_size (p + 1) = 64 ∨
       usbtiny_set_chunk_size (p + 1) = 128) := by
  decide

/-- C5: for every clock period in [1, 250] the derived chunk size is a power
of two in [8, 128] and is monotonically non-increasing in the period; period
10 yields chunk size 128 and period 200 yields chunk size 8. -/
theorem usbtiny_chunk_size_monotone_pow2 :
    (∀ p q : Nat, 1 ≤ p → p ≤ q → q ≤ 250 →
      usbtiny_set_chunk_size q ≤ usbtiny_set_chunk_size p) ∧
    (∀ p : Nat, 1 ≤ p → p ≤ 250 →
      8 ≤ usbtiny_set_chunk_size p ∧ usbtiny_set_chunk_size p ≤ 128 ∧
      ∃ k : Nat, usbtiny_set_chunk_size p = 2 ^ k) ∧
    usbtiny_set_chunk_size 10 = 128 ∧ usbtiny_set_chunk_size 200 = 8 := by
  refine ⟨?_, ?_, by decide, by decide⟩
  · intro p q hp hpq hq
    obtain ⟨d, rfl⟩ : ∃ d, q = p + d := ⟨q - p, by omega⟩
    exact chunk_size_add_le d p hp (by omega)
  · intro p hp hple
    obtain ⟨p', rfl⟩ : ∃ p', p = p' + 1 := ⟨p - 1, by omega⟩
    obtain ⟨h8, h128, hcases⟩ := chunk_size_range p' (by omega)
    refine ⟨h8, h128, ?_⟩
    rcases hcases with h | h | h | h | h
    · exact ⟨3, h⟩
    · exact ⟨4, h⟩
    · exact ⟨5, h⟩
    · exact ⟨6, h⟩
    · exact ⟨7, h⟩

/-- Witness for C5 at concrete inputs. -/
theorem usbtiny_chunk_size_monotone_pow2_witness :
    usbtiny_set_chunk_size 200 ≤ usbtiny_set_chunk_size 10 :=
  usbtiny_chunk_size_monotone_pow2.1 10 200 (by decide) (by decide) (by decide)

/-- C6: for every requested bit-clock value `v` (in seconds, idealised as a
rational), `usbtiny_set_sck_period` sets the clock period to
`clamp (round (v * 1e6)) 1 250`. -/
theorem usbtiny_set_sck_period_eq_clamp_round (v : ℚ) :
    usbtiny_set_sck_period v = max 1 (min 250 (round (v * 1000000))) := by
  have hround : round (v * 1000000) = ⌊v * 1000000 + 1 / 2⌋ := round_eq _
  unfold usbtiny_set_sck_period intTrunc
  simp only [SCK_MIN, SCK_MAX, hround]
  by_cases hneg : v * 1000000 + 1 / 2 < 0
  · have hfloor : ⌊v * 1000000 + 1 / 2⌋ < 0 := by
      exact Int.floor_lt.mpr (by simpa using hneg)
    have hnn : (0 : ℤ) ≤ ⌊-(v * 1000000 + 1 / 2)⌋ :=
      Int.floor_nonneg.mpr (by linarith)
    rw [if_pos hneg]
    omega
  · rw [if_neg hneg]
    omega

/-! ## Command relay -/

lemma usbtiny_cmd_state (ch : Channel) (st : TinyState) (cmd : Fin 4 → Nat) :
    (usbtiny_cmd ch st cmd).state = { st with cache_mem := none } := by
  unfold usbtiny_cmd
  cases ch.spi cmd <;> rfl

/-- C2: `usbtiny_avr_op` returns `-1` when the part defines no bit template
for the operation; otherwise it relays through `usbtiny_cmd`, which reports
success (returns `1`) iff the SPI exchange transferred exactly 4 response
bytes and `res[2] = cmd[1]`, and failure (`0`) in every other case. -/
theorem usbtiny_cmd_ack_check (ch : Channel) (st : TinyState) (cmd : Fin 4 → Nat)
    (p : AVRPART) (opk : Nat) :
    ((usbtiny_cmd ch st cmd).ret = 1 ↔
      ∃ res, ch.spi cmd = some res ∧ res 2 = cmd 1) ∧
    ((usbtiny_cmd ch st cmd).ret = 1 ∨ (usbtiny_cmd ch st cmd).ret = 0) ∧
    (p.op opk = none → (usbtiny_avr_op ch st p opk).ret = -1) ∧
    (∀ tmpl, p.op opk = some tmpl →
      usbtiny_avr_op ch st p opk = usbtiny_cmd ch st (avr_set_bits tmpl (fun _ => 0))) := by
  refine ⟨?_, ?_, ?_, ?_⟩
  · unfold usbtiny_cmd
    cases h : ch.spi cmd with
    | none => simp [h]
    | some res =>
      by_cases hr : res 2 = cmd 1
      · simp [h, hr]
      · simp [h, hr]
  · unfold usbtiny_cmd
    cases h : ch.spi cmd with
    | none => simp
    | some res => by_cases hr : res 2 = cmd 1 <;> simp [hr]
  · intro h
    unfold usbtiny_avr_op
    rw [h]
  · intro tmpl h
    unfold usbtiny_avr_op
    rw [h]

/-- Witness for C2 at concrete inputs: a part with no template yields `-1`,
and an echoing channel makes the relay succeed. -/
theorem usbtiny_cmd_ack_check_witness :
    (usbtiny_avr_op chW stW pNone 3).ret = -1 ∧ (usbtiny_cmd chW stW cmdW).ret = 1 :=
  ⟨(usbtiny_cmd_ack_check chW stW cmdW pNone 3).2.2.1 rfl,
   (usbtiny_cmd_ack_check chW stW cmdW pNone 3).1.mpr ⟨fun _ => cmdW 1, rfl, rfl⟩⟩

/-! ## Byte cache lemmas -/

lemma usbtiny_read_byte_miss_refilled (ch : Channel) (st : TinyState) (m : AVRMEM)
    (addr : Nat) (hdis : st.cache_disable = 0)
    (hdesc : m.desc = "flash" ∨ m.desc = "eeprom")
    (hmiss : st.cache_mem ≠ some m.id ∨ st.cache_base ≠ cacheBase st.chunk_size addr) :
    (usbtiny_read_byte ch st m addr).refilled = true := by
  unfold usbtiny_read_byte
  rw [if_neg (by omega), if_neg (by rcases hdesc with h | h <;> simp [h])]
  simp only
  rw [if_pos hmiss]
  cases ch.memRead (if m.desc = "flash" then USBTINY_FLASH_READ else USBTINY_EEPROM_READ)
      (cacheBase st.chunk_size addr)
      (if m.size < st.chunk_size then m.size else st.chunk_size) <;> rfl

lemma usbtiny_read_byte_hit (ch : Channel) (st : TinyState) (m : AVRMEM)
    (addr : Nat) (hdis : st.cache_disable = 0)
    (hdesc : m.desc = "flash" ∨ m.desc = "eeprom")
    (hhit1 : st.cache_mem = some m.id)
    (hhit2 : st.cache_base = cacheBase st.chunk_size addr) :
    usbtiny_read_byte ch st m addr =
      ⟨.ok (st.cache_buf (addr - cacheBase st.chunk_size addr)), false, st⟩ := by
  unfold usbtiny_read_byte
  rw [if_neg (by omega), if_neg (by rcases hdesc with h | h <;> simp [h])]
  simp only
  rw [if_neg (by push_neg; exact ⟨hhit1, hhit2⟩)]

lemma usbtiny_read_byte_refill_success (ch : Channel) (st : TinyState) (m : AVRMEM)
    (addr : Nat) (data : Nat → Nat) (hdis : st.cache_disable = 0)
    (hdesc : m.desc = "flash" ∨ m.desc = "eeprom")
    (hmiss : st.cache_mem ≠ some m.id ∨ st.cache_base ≠ cacheBase st.chunk_size addr)
    (hch : ch.memRead (if m.desc = "flash" then USBTINY_FLASH_READ else USBTINY_EEPROM_READ)
      (cacheBase st.chunk_size addr)
      (if m.size < st.chunk_size then m.size else st.chunk_size) = some data) :
    usbtiny_read_byte ch st m addr =
      ⟨.ok ((fun k => if k < (if m.size < st.chunk_size then m.size else st.chunk_size)
              then data k else st.cache_buf k) (addr - cacheBase st.chunk_size addr)),
       true,
       { st with
         cache_mem := some m.id,
         cache_base := cacheBase st.chunk_size addr,
         cache_buf := fun k =>
           if k < (if m.size < st.chunk_size then m.size else st.chunk_size)
           then data k else st.cache_buf k }⟩ := by
  unfold usbtiny_read_byte
  rw [if_neg (by omega), if_neg (by rcases hdesc with h | h <;> simp [h])]
  simp only
  rw [if_pos hmiss, hch]

lemma usbtiny_read_byte_refill_failure (ch : Channel) (st : TinyState) (m : AVRMEM)
    (addr : Nat) (hdis : st.cache_disable = 0)
    (hdesc : m.desc = "flash" ∨ m.desc = "eeprom")
    (hmiss : st.cache_mem ≠ some m.id ∨ st.cache_base ≠ cacheBase st.chunk_size addr)
    (hch : ch.memRead (if m.desc = "flash" then USBTINY_FLASH_READ else USBTINY_EEPROM_READ)
      (cacheBase st.chunk_size addr)
      (if m.size < st.chunk_size then m.size else st.chunk_size) = none) :
    usbtiny_read_byte ch st m addr = ⟨.err, true, { st with cache_mem := none }⟩ := by
  unfold usbtiny_read_byte
  rw [if_neg (by omega), if_neg (by rcases hdesc with h | h <;> simp [h])]
  simp only
  rw [if_pos hmiss, hch]

/-- C3: issuing any 4-byte command through `usbtiny_cmd` invalidates the
single-slot cache, so the next `usbtiny_read_byte` on a cacheable region
with caching enabled performs a channel refill — whatever region and base
were cached before the command. -/
theorem usbtiny_cmd_forces_refill (ch : Channel) (st : TinyState) (cmd : Fin 4 → Nat)
    (m : AVRMEM) (addr : Nat) (hdis : st.cache_disable = 0)
    (hdesc : m.desc = "flash" ∨ m.desc = "eeprom") :
    (usbtiny_read_byte ch (usbtiny_cmd ch st cmd).state m addr).refilled = true := by
  rw [usbtiny_cmd_state]
  exact usbtiny_read_byte_miss_refilled ch _ m addr hdis hdesc (Or.inl (by simp))

/-- Witness for C3: a command between two reads forces a refill even though
region and base are unchanged from the cached entry. -/
theorem usbtiny_cmd_forces_refill_witness :
    (usbtiny_read_byte chW (usbtiny_cmd chW stW cmdW).state mFlash 3).refilled = true :=
  usbtiny_cmd_forces_refill chW stW cmdW mFlash 3 (by decide) (Or.inl rfl)

/-- C8: when the cache-miss refill transfer fails, `usbtiny_read_byte`
invalidates the cache entry (`cache_mem = NULL`) and returns the error,
and a subsequent read cannot hit the cache: it refills again. -/
theorem usbtiny_read_byte_failed_refill_invalidates (ch ch' : Channel) (st : TinyState)
    (m : AVRMEM) (addr addr' : Nat) (hdis : st.cache_disable = 0)
    (hdesc : m.desc = "flash" ∨ m.desc = "eeprom")
    (hmiss : st.cache_mem ≠ some m.id ∨ st.cache_base ≠ cacheBase st.chunk_size addr)
    (hch : ch.memRead (if m.desc = "flash" then USBTINY_FLASH_READ else USBTINY_EEPROM_READ)
      (cacheBase st.chunk_size addr)
      (if m.size < st.chunk_size then m.size else st.chunk_size) = none) :
    (usbtiny_read_byte ch st m addr).outcome = .err ∧
    (usbtiny_read_byte ch st m addr).state.cache_mem = none ∧
    (usbtiny_read_byte ch' (usbtiny_read_byte ch st m addr).state m addr').refilled = true := by
  rw [usbtiny_read_byte_refill_failure ch st m addr hdis hdesc hmiss hch]
  exact ⟨rfl, rfl, usbtiny_read_byte_miss_refilled ch' _ m addr' hdis hdesc
    (Or.inl (by simp))⟩

/-- Witness for C8 at a concrete failing channel. -/
theorem usbtiny_read_byte_failed_refill_invalidates_witness :
    (usbtiny_read_byte chFail0 stW mFlash 3).outcome = .err ∧
    (usbtiny_read_byte chFail0 stW mFlash 3).state.cache_mem = none ∧
    (usbtiny_read_byte chW (usbtiny_read_byte chFail0 stW mFlash 3).state mFlash 3).refilled
      = true :=
  usbtiny_read_byte_failed_refill_invalidates chFail0 chW stW mFlash 3 3 (by decide)
    (Or.inl rfl) (Or.inl (by decide)) rfl

/-- C7: with the cache enabled, a cacheable region, an invalid cache slot and
a reliable channel, two consecutive single-byte reads whose addresses share
the chunk-aligned base trigger exactly one refill (the first refills, the
second hits); a subsequent read at a different base, or of a different
cacheable region, triggers a new refill. -/
theorem usbtiny_read_byte_cache_single_refill (ch : Channel) (st : TinyState)
    (m m' : AVRMEM) (a1 a2 a3 a4 : Nat) (hdis : st.cache_disable = 0)
    (hdesc : m.desc = "flash" ∨ m.desc = "eeprom")
    (hcold : st.cache_mem = none)
    (hch : ∀ req a l, (ch.memRead req a l).isSome = true)
    (hsame : cacheBase st.chunk_size a2 = cacheBase st.chunk_size a1) :
    (usbtiny_read_byte ch st m a1).refilled = true ∧
    (usbtiny_read_byte ch (usbtiny_read_byte ch st m a1).state m a2).refilled = false ∧
    (cacheBase st.chunk_size a3 ≠ cacheBase st.chunk_size a1 →
      (usbtiny_read_byte ch (usbtiny_read_byte ch
        (usbtiny_read_byte ch st m a1).state m a2).state m a3).refilled = true) ∧
    ((m'.desc = "flash" ∨ m'.desc = "eeprom") → m'.id ≠ m.id →
      (usbtiny_read_byte ch (usbtiny_read_byte ch
        (usbtiny_read_byte ch st m a1).state m a2).state m' a4).refilled = true) := by
  obtain ⟨data, hdata⟩ := Option.isSome_iff_exists.mp
    (hch (if m.desc = "flash" then USBTINY_FLASH_READ else USBTINY_EEPROM_READ)
      (cacheBase st.chunk_size a1)
      (if m.size < st.chunk_size then m.size else st.chunk_size))
  have hmiss1 : st.cache_mem ≠ some m.id ∨ st.cache_base ≠ cacheBase st.chunk_size a1 :=
    Or.inl (by simp [hcold])
  have h1 := usbtiny_read_byte_refill_success ch st m a1 data hdis hdesc hmiss1 hdata
  have h2 : usbtiny_read_byte ch (usbtiny_read_byte ch st m a1).state m a2 =
      ⟨.ok ((usbtiny_read_byte ch st m a1).state.cache_buf
        (a2 - cacheBase (usbtiny_read_byte ch st m a1).state.chunk_size a2)), false,
        (usbtiny_read_byte ch st m a1).state⟩ := by
    rw [h1]
    exact usbtiny_read_byte_hit ch _ m a2 hdis hdesc rfl (by simpa using hsame.symm)
  refine ⟨by rw [h1], by rw [h2], ?_, ?_⟩
  · intro hdiff
    rw [h2, h1]
    exact usbtiny_read_byte_miss_refilled ch _ m a3 hdis hdesc
      (Or.inr (by simpa using fun h => hdiff h.symm))
  · intro hdesc' hid
    rw [h2, h1]
    exact usbtiny_read_byte_miss_refilled ch _ m' a4 hdis hdesc'
      (Or.inl (by simpa using Ne.symm hid))

/-- Witness for C7 at concrete inputs: reads at 3 and 5 share base 0 and
cause one refill; a read at 200 (base 128) refills again. -/
theorem usbtiny_read_byte_cache_single_refill_witness :
    (usbtiny_read_byte chW stW mFlash 3).refilled = true ∧
    (usbtiny_read_byte chW (usbtiny_read_byte chW stW mFlash 3).state mFlash 5).refilled
      = false ∧
    (usbtiny_read_byte chW (usbtiny_read_byte chW
      (usbtiny_read_byte chW stW mFlash 3).state mFlash 5).state mFlash 200).refilled
      = true := by
  have h := usbtiny_read_byte_cache_single_refill chW stW mFlash mEeprom 3 5 200 0
    (by decide) (Or.inl rfl) rfl (fun _ _ _ => rfl) (by decide)
  exact ⟨h.1, h.2.1, h.2.2.1 (by decide)⟩

/-! ## Initialization -/

/-- C10: when the part defines no bit template for the programming-enable
operation, `usbtiny_avr_op` returns `-1`, the C `!` test in
`usbtiny_initialize` treats that as success, and initialization returns `0`
without a single SPI exchange having been issued. -/
theorem usbtiny_init_no_template_success (ch : Channel) (st : TinyState) (p : AVRPART)
    (bitclock : ℚ) (h : p.op AVR_OP_PGM_ENABLE = none) :
    (usbtiny_avr_op ch st p AVR_OP_PGM_ENABLE).ret = -1 ∧
    (usbtiny_init ch st p bitclock).ret = 0 ∧
    (usbtiny_init ch st p bitclock).spiExchanges = 0 := by
  refine ⟨by unfold usbtiny_avr_op; rw [h], ?_, ?_⟩ <;>
  · unfold usbtiny_init
    simp only [usbtiny_avr_op, h]
    norm_num [spiCount]

/-- Witness for C10 at a concrete template-less part. -/
theorem usbtiny_init_no_template_success_witness :
    (usbtiny_init chW stW pNone 0).ret = 0 ∧
    (usbtiny_init chW stW pNone 0).spiExchanges = 0 :=
  ⟨(usbtiny_init_no_template_success chW stW pNone 0 rfl).2.1,
   (usbtiny_init_no_template_success chW stW pNone 0 rfl).2.2⟩

/-! ## Memory access engine: chunk accounting -/

lemma loadChunks_past_end (ch : Channel) (req csize nBytes : Nat) (fuel i : Nat)
    (h : nBytes ≤ i) : loadChunks ch req csize nBytes fuel i = [] := by
  cases fuel with
  | zero => rfl
  | succ fuel => simp [loadChunks, Nat.not_lt.mpr h]

lemma loadChunks_shape (ch ch' : Channel) (req csize nBytes : Nat) :
    ∀ fuel i, (loadChunks ch req csize nBytes fuel i).map (fun e => (e.offset, e.len)) =
      (loadChunks ch' req csize nBytes fuel i).map (fun e => (e.offset, e.len)) := by
  intro fuel
  induction fuel with
  | zero => intro i; rfl
  | succ fuel ih =>
    intro i
    by_cases h : i < nBytes <;> simp [loadChunks, h, ih]

lemma loadChunks_sum (ch : Channel) (req csize nBytes : Nat) (hcs : 0 < csize) :
    ∀ fuel i, nBytes - i ≤ fuel →
      ((loadChunks ch req csize nBytes fuel i).map (fun e => e.len)).sum = nBytes - i := by
  intro fuel
  induction fuel with
  | zero => intro i hle; simp [loadChunks]; omega
  | succ fuel ih =>
    intro i hle
    by_cases h : i < nBytes
    · simp only [loadChunks, if_pos h, List.map_cons, List.sum_cons]
      set chunk := if nBytes - i < csize then nBytes - i else csize with hchunk
      have hc1 : 1 ≤ chunk ∧ chunk ≤ nBytes - i := by
        rw [hchunk]; split <;> omega
      rw [ih (i + chunk) (by omega)]
      omega
    · simp [loadChunks, h]; omega

lemma writeChunks_past_end (ch : Channel) (req : Nat) (paged : Bool)
    (csize pgsize delay nBytes fuel i : Nat) (h : nBytes ≤ i) :
    writeChunks ch req paged csize pgsize delay nBytes fuel i = [] := by
  cases fuel with
  | zero => rfl
  | succ fuel => simp [writeChunks, Nat.not_lt.mpr h]

lemma writeChunks_sum (ch : Channel) (req : Nat) (paged : Bool)
    (csize pgsize delay nBytes : Nat) (hcs : 0 < csize)
    (hpg : paged = true → 0 < pgsize) :
    ∀ fuel i, nBytes - i ≤ fuel →
      ((writeChunks ch req paged csize pgsize delay nBytes fuel i).map
        (fun e => e.len)).sum = nBytes - i := by
  intro fuel
  induction fuel with
  | zero => intro i hle; simp [writeChunks]; omega
  | succ fuel ih =>
    intro i hle
    by_cases h : i < nBytes
    · simp only [writeChunks, if_pos h, List.map_cons, List.sum_cons]
      set chunk0 := if paged ∧ pgsize < csize then pgsize else csize with hchunk0
      have hc0 : 1 ≤ chunk0 := by
        rw [hchunk0]; split
        · next hcond => exact hpg hcond.1
        · exact hcs
      set chunk := if nBytes - i < chunk0 then nBytes - i else chunk0 with hchunk
      have hc1 : 1 ≤ chunk ∧ chunk ≤ nBytes - i := by
        rw [hchunk]; split <;> omega
      rw [ih (i + chunk) (by omega)]
      omega
    · simp [writeChunks, h]; omega

/-- C9: across all chunks, a paged read and a paged write transfer exactly
`n_bytes` bytes in total, both return `n_bytes`, and `n_bytes = 0` performs
zero chunk iterations and returns 0 for both operations. -/
theorem usbtiny_paged_total_bytes (ch : Channel) (st : TinyState) (m : AVRMEM)
    (page_size n : Nat) (hcs : 0 < st.chunk_size) (hpg : m.paged = true → 0 < page_size) :
    ((usbtiny_paged_load ch st m n).1.map (fun e => e.len)).sum = n ∧
    (usbtiny_paged_load ch st m n).2 = n ∧
    ((usbtiny_paged_write ch st m page_size n).1.map (fun e => e.len)).sum = n ∧
    (usbtiny_paged_write ch st m page_size n).2 = n ∧
    (n = 0 → (usbtiny_paged_load ch st m n).1 = [] ∧
      (usbtiny_paged_write ch st m page_size n).1 = []) := by
  refine ⟨?_, rfl, ?_, rfl, ?_⟩
  · simpa using loadChunks_sum ch _ st.chunk_size n hcs n 0 (by omega)
  · simpa using writeChunks_sum ch _ m.paged st.chunk_size page_size _ n hcs hpg n 0 (by omega)
  · rintro rfl
    exact ⟨rfl, rfl⟩

/-- Witness for C9 at concrete inputs (300 bytes, chunk 128, page 64). -/
theorem usbtiny_paged_total_bytes_witness :
    ((usbtiny_paged_load chW stW mFlash 300).1.map (fun e => e.len)).sum = 300 ∧
    ((usbtiny_paged_write chW stW mFlash 64 300).1.map (fun e => e.len)).sum = 300 :=
  ⟨(usbtiny_paged_total_bytes chW stW mFlash 64 300 (by decide) (fun _ => by decide)).1,
   (usbtiny_paged_total_bytes chW stW mFlash 64 300 (by decide) (fun _ => by decide)).2.2.1⟩

/-- C1 counterexample: with a channel that short-changes the chunk at offset
0, `usbtiny_paged_load` of 256 bytes does not fail: it still issues the
second chunk transfer and returns 256. -/
theorem usbtiny_paged_load_short_transfer_not_propagated :
    ((usbtiny_paged_load chFail0 stW mFlash 256).1.map (fun e => (e.offset, e.len, e.ok)) =
      [(0, 128, false), (128, 128, true)]) ∧
    (usbtiny_paged_load chFail0 stW mFlash 256).2 = 256 := by
  decide

/-- C1 amended: `usbtiny_paged_load` ignores short chunk transfers — the
sequence of chunk offsets and lengths is the same for every channel,
failures included, and the return value is always `n_bytes`. -/
theorem usbtiny_paged_load_ignores_failures (ch ch' : Channel) (st : TinyState)
    (m : AVRMEM) (n : Nat) :
    (usbtiny_paged_load ch st m n).2 = n ∧
    ((usbtiny_paged_load ch st m n).1.map (fun e => (e.offset, e.len)) =
      (usbtiny_paged_load ch' st m n).1.map (fun e => (e.offset, e.len))) :=
  ⟨rfl, loadChunks_shape ch ch' _ st.chunk_size n n 0⟩

/-! ## Page-commit counting -/

lemma div_add_chunk {pg c i : Nat} (hp : 0 < pg) (hc : 0 < c) (hcp : c ∣ pg)
    (hci : c ∣ i) :
    (i + c) / pg = i / pg + (if (i + c) % pg = 0 then 1 else 0) := by
  have hr : c ∣ i % pg := (Nat.dvd_mod_iff hcp).mpr hci
  have h1 : i % pg < pg := Nat.mod_lt _ hp
  have h2 : i % pg + c ≤ pg := by
    have h3 : c ∣ pg - i % pg := Nat.dvd_sub' hcp hr
    have h5 : c ≤ pg - i % pg := Nat.le_of_dvd (by omega) h3
    omega
  have e1 : pg * (i / pg) + i % pg = i := Nat.div_add_mod i pg
  by_cases hcase : i % pg + c = pg
  · have he : i + c = pg * (i / pg + 1) := by
      rw [Nat.mul_add, Nat.mul_one]; omega
    rw [he, Nat.mul_div_cancel_left _ hp, Nat.mul_mod_right]
    simp
  · have hlt : i % pg + c < pg := by omega
    have he : i + c = pg * (i / pg) + (i % pg + c) := by omega
    rw [he, Nat.mul_add_div hp, Nat.mul_add_mod]
    rw [Nat.div_eq_of_lt hlt, Nat.mod_eq_of_lt hlt]
    have hne : ¬(i % pg + c = 0) := by omega
    simp [hne]

lemma div_pred_eq {pg c i n : Nat} (hp : 0 < pg) (hc : 0 < c) (hcp : c ∣ pg)
    (hci : c ∣ i) (hin : i < n) (hni : n ≤ i + c) : (n - 1) / pg = i / pg := by
  have hle : i / pg ≤ (n - 1) / pg := Nat.div_le_div_right (by omega)
  by_contra hne
  have hlt2 : i / pg + 1 ≤ (n - 1) / pg := by omega
  have e1 : pg * (i / pg) + i % pg = i := Nat.div_add_mod i pg
  have e2 : i % pg < pg := Nat.mod_lt _ hp
  have e3 : ((n - 1) / pg) * pg ≤ n - 1 := Nat.div_mul_le_self _ _
  have e4 : (i / pg + 1) * pg ≤ ((n - 1) / pg) * pg := Nat.mul_le_mul_right _ hlt2
  have e5 : (i / pg + 1) * pg = pg * (i / pg) + pg := by ring
  have e6 : c ∣ (i / pg + 1) * pg := hcp.mul_left _
  have e7 : c ∣ (i / pg + 1) * pg - i := Nat.dvd_sub' e6 hci
  have e8 : i < (i / pg + 1) * pg := by omega
  have e9 : c ≤ (i / pg + 1) * pg - i := Nat.le_of_dvd (by omega) e7
  omega

lemma writeChunks_commit_count (ch : Channel) (req : Nat)
    (csize pgsize delay nBytes : Nat) (hp : 0 < pgsize) (hcs : 0 < csize)
    (hdvd : min csize pgsize ∣ pgsize) :
    ∀ fuel i, nBytes - i ≤ fuel → min csize pgsize ∣ i → i < nBytes →
      ((writeChunks ch req true csize pgsize delay nBytes fuel i).countP
        (fun e => e.commit)) = (nBytes - 1) / pgsize - i / pgsize + 1 := by
  intro fuel
  induction fuel with
  | zero => intro i hfuel _ hin; omega
  | succ fuel ih =>
    intro i hfuel hdi hin
    have hc : 0 < min csize pgsize := by omega
    simp only [writeChunks, if_pos hin]
    have hch0 : (if True ∧ pgsize < csize then pgsize else csize) =
        min csize pgsize := by
      rcases Nat.lt_or_ge pgsize csize with h | h
      · rw [if_pos ⟨trivial, h⟩]; omega
      · rw [if_neg fun hcond => absurd hcond.2 (Nat.not_lt.mpr h)]; omega
    rw [hch0]
    by_cases hA : nBytes - i ≤ min csize pgsize
    · have hchunk : (if nBytes - i < min csize pgsize then nBytes - i
          else min csize pgsize) = nBytes - i := by split <;> omega
      rw [hchunk]
      have hnext : i + (nBytes - i) = nBytes := by omega
      rw [hnext, writeChunks_past_end ch req true csize pgsize delay nBytes fuel nBytes
        (le_refl _)]
      have hdeq : (nBytes - 1) / pgsize = i / pgsize :=
        div_pred_eq hp hc hdvd hdi hin (by omega)
      simp [List.countP_cons, hdeq]
    · have hchunk : (if nBytes - i < min csize pgsize then nBytes - i
          else min csize pgsize) = min csize pgsize := by split <;> omega
      rw [hchunk]
      have hnextlt : i + min csize pgsize < nBytes := by omega
      have hdiv := div_add_chunk (c := min csize pgsize) hp hc hdvd hdi
      have hmono1 : (i + min csize pgsize) / pgsize ≤ (nBytes - 1) / pgsize :=
        Nat.div_le_div_right (by omega)
      rw [List.countP_cons]
      rw [ih (i + min csize pgsize) (by omega) (Nat.dvd_add hdi dvd_rfl) hnextlt]
      have hne : ((i + min csize pgsize) == nBytes) = false := by
        simp; omega
      by_cases hb : (i + min csize pgsize) % pgsize = 0
      · rw [if_pos hb] at hdiv
        have hbeq : ((i + min csize pgsize) % pgsize == 0) = true := by
          simpa using hb
        simp [hbeq]
        omega
      · rw [if_neg hb] at hdiv
        have hbeq : ((i + min csize pgsize) % pgsize == 0) = false := by
          simpa using hb
        simp [hbeq, hne]
        omega

lemma writeChunks_nonpaged_no_commit (ch : Channel) (req : Nat)
    (csize pgsize delay nBytes : Nat) :
    ∀ fuel i, ((writeChunks ch req false csize pgsize delay nBytes fuel i).countP
      (fun e => e.commit)) = 0 := by
  intro fuel
  induction fuel with
  | zero => intro i; rfl
  | succ fuel ih =>
    intro i
    by_cases h : i < nBytes <;> simp [writeChunks, h, ih, List.countP_cons]

/-- C4 counterexample: writing 300 bytes to a paged region with
`page_size = 64` and `chunk_size = 128` produces chunks of sizes
64, 64, 64, 64, 44 — not 64, 64, 64, 64, 12 as claimed (300 − 256 = 44). -/
theorem usbtiny_paged_write_chunk_sizes_cex :
    ((usbtiny_paged_write chW stW mFlash 64 300).1.map (fun e => (e.offset, e.len)) =
      [(0, 64), (64, 64), (128, 64), (192, 64), (256, 44)]) ∧
    ((usbtiny_paged_write chW stW mFlash 64 300).1.map (fun e => (e.offset, e.len)) ≠
      [(0, 64), (64, 64), (128, 64), (192, 64), (256, 12)]) := by
  decide

/-- C4 amended: the page-commit step runs exactly `ceil (n_bytes / page_size)`
times for page-organized regions (with the spec's alignment precondition
that chunks relate evenly to pages: the effective chunk `min chunk_size
page_size` divides `page_size`) and zero times for non-page-organized
regions; the 300-byte scenario produces chunks at offsets 0, 64, 128, 192,
256 of sizes 64, 64, 64, 64, 44 with commits at offsets 0, 64, 128, 192,
256. -/
theorem usbtiny_paged_write_commit_count :
    (∀ (ch : Channel) (st : TinyState) (m : AVRMEM) (pg n : Nat),
      m.paged = true → 0 < pg → 0 < st.chunk_size → min st.chunk_size pg ∣ pg →
      ((usbtiny_paged_write ch st m pg n).1.countP (fun e => e.commit)) =
        (n + pg - 1) / pg) ∧
    (∀ (ch : Channel) (st : TinyState) (m : AVRMEM) (pg n : Nat),
      m.paged = false →
      ((usbtiny_paged_write ch st m pg n).1.countP (fun e => e.commit)) = 0) ∧
    ((usbtiny_paged_write chW stW mFlash 64 300).1.map (fun e => (e.offset, e.len)) =
      [(0, 64), (64, 64), (128, 64), (192, 64), (256, 44)]) ∧
    (((usbtiny_paged_write chW stW mFlash 64 300).1.filter (fun e => e.commit)).map
      (fun e => e.offset) = [0, 64, 128, 192, 256]) := by
  refine ⟨?_, ?_, by decide, by decide⟩
  · intro ch st m pg n hm hpg hcs hdvd
    unfold usbtiny_paged_write
    simp only [hm, if_pos rfl]
    rcases Nat.eq_zero_or_pos n with hn | hn
    · subst hn
      simp [writeChunks, Nat.div_eq_of_lt (by omega : pg - 1 < pg)]
    · rw [writeChunks_commit_count ch _ st.chunk_size pg _ n hpg hcs hdvd n 0
        (by omega) (dvd_zero _) hn]
      rw [Nat.zero_div, Nat.sub_zero]
      have he : n + pg - 1 = (n - 1) + pg := by omega
      rw [he, Nat.add_div_right _ hpg]
  · intro ch st m pg n hm
    unfold usbtiny_paged_write
    simp only [hm]
    exact writeChunks_nonpaged_no_commit ch _ st.chunk_size pg _ n n 0

/-- Witness for C4 (amended) at concrete inputs: 5 commits for 300 bytes
with 64-byte pages, none for a non-paged region. -/
theorem usbtiny_paged_write_commit_count_witness :
    ((usbtiny_paged_write chW stW mFlash 64 300).1.countP (fun e => e.commit)) = 5 ∧
    ((usbtiny_paged_write chW stW mEeprom 64 300).1.countP (fun e => e.commit)) = 0 := by
  constructor
  · have h := usbtiny_paged_write_commit_count.1 chW stW mFlash 64 300 rfl
      (by decide) (by decide) (by decide)
    simpa using h
  · exact usbtiny_paged_write_commit_count.2.1 chW stW mEeprom 64 300 rfl
